import Mathlib

/-
Verification of the Livre rendering core against its specification.

Shallow embedding of:
  - EventHandler::Impl::gatherHistogram and the ViewHistogram queue
    (distributed per-frame histogram aggregation),
  - RayCastRenderer::Impl::order and DistanceOperator (visibility ordering),
  - RayCastRenderer::Impl::onFrameStart (adaptive sample rate, data types),
  - RayCastRenderer::Impl::onFrameRender / renderBrick / getVisibleNodes.

Conventions of the embedding: C++ float values are modelled as rationals
(decimal literals denote their exact decimal value), uint32_t counters as
Nat, std::deque<ViewHistogram> as List ViewHistogram with index 0 at the
front (begin) of the deque, and the GL side effects of the renderer as an
explicit trace state.
-/

namespace Livre

/-! ## Histogram aggregation (EventHandler) -/

/-- A histogram is a fixed-width vector of buckets.  The Histogram class
itself is not under src; modelled from the spec: histogram buckets
(fixed-width numeric vector). -/
abbrev Histogram := List Nat

/-- Modelled from the spec: partial contributions combine by elementwise
sum of buckets (the source of Histogram::operator+= is not under src). -/
def histAdd (a b : Histogram) : Histogram :=
  List.zipWith (fun x y => x + y) a b

/-- ViewHistogram from EventHandler: a histogram, a coverage area and a
frame id. -/
structure ViewHistogram where
  histogram : Histogram
  area : ℚ
  id : Nat
deriving DecidableEq

/-- ViewHistogram::operator+= : bucket-wise histogram sum, area sum, the
frame id of the left (existing) operand is kept.  The self-assignment check
of the C++ code cannot trigger at the single call site (the right operand
is a fresh local) and is not part of the value semantics. -/
def vhAdd (d v : ViewHistogram) : ViewHistogram :=
  ⟨histAdd d.histogram v.histogram, d.area + v.area, d.id⟩

/-- ViewHistogram::isComplete : the summed coverage area lies within
eps = 0.0001 of 1.0. -/
def ViewHistogram.isComplete (v : ViewHistogram) : Prop :=
  |(1 : ℚ) - v.area| ≤ 1 / 10000

instance (v : ViewHistogram) : Decidable v.isComplete := by
  unfold ViewHistogram.isComplete
  infer_instance

/-- The aggregator state: the histogram held by the Config (the last one
set and published), the log of publish events (frame id of the published
entry together with the published histogram), the configured latency and
the deque of in-flight ViewHistograms (front = newest). -/
structure HistogramAggregator where
  lastHistogram : Histogram
  published : List (Nat × Histogram)
  latency : Nat
  queue : List ViewHistogram
deriving DecidableEq

/-- The publish step: setHistogram and publish run only when the candidate
differs from the histogram currently held by the Config. -/
def publishIfChanged (last : Histogram) (pub : List (Nat × Histogram))
    (h : Histogram) (i : Nat) : Histogram × List (Nat × Histogram) :=
  if last = h then (last, pub) else (h, pub ++ [(i, h)])

/-- Outcome of the iterator loop of gatherHistogram: either the loop
returned early (after publishing a complete entry and erasing it together
with everything older), or it broke out after a merge or an insertion, or
it fell off the end without merging. -/
inductive LoopRes where
  | ret (q : List ViewHistogram) (last : Histogram) (pub : List (Nat × Histogram))
  | brk (q : List ViewHistogram)
  | done (q : List ViewHistogram)

/-- The iterator loop of gatherHistogram over the deque suffix starting at
the current iterator position.  Per iteration, for the element data at the
iterator: if the incoming id equals data.id the incoming contribution is
merged into data; else if the incoming id is newer the incoming
contribution is inserted before data (std::deque emplace; the reference
data still designates the pre-existing element, which is what the
subsequent isComplete check reads).  If the element the reference
designates is complete, the histogram is published when it differs and
erase(it, end) drops everything from the iterator position on; erase keeps
only the already visited prefix, which the recursion re-attaches. -/
def gatherLoop (vh : ViewHistogram) (last : Histogram)
    (pub : List (Nat × Histogram)) : List ViewHistogram → LoopRes
  | [] => LoopRes.done []
  | data :: rest =>
    if vh.id = data.id then
      let merged := vhAdd data vh
      if merged.isComplete then
        let lp := publishIfChanged last pub merged.histogram merged.id
        LoopRes.ret [] lp.1 lp.2
      else LoopRes.brk (merged :: rest)
    else if data.id < vh.id then
      if data.isComplete then
        let lp := publishIfChanged last pub data.histogram data.id
        LoopRes.ret [] lp.1 lp.2
      else LoopRes.brk (vh :: data :: rest)
    else
      if data.isComplete then
        let lp := publishIfChanged last pub data.histogram data.id
        LoopRes.ret [] lp.1 lp.2
      else
        match gatherLoop vh last pub rest with
        | LoopRes.ret q l p => LoopRes.ret (data :: q) l p
        | LoopRes.brk q => LoopRes.brk (data :: q)
        | LoopRes.done q => LoopRes.done (data :: q)

/-- The guard at the top of gatherHistogram: skip the contribution when the
queue is nonempty and the incoming id is below the id of the back (oldest)
entry of the deque. -/
def staleGuard (q : List ViewHistogram) (cid : Nat) : Prop :=
  match q.getLast? with
  | some b => cid < b.id
  | none => False

instance (q : List ViewHistogram) (cid : Nat) : Decidable (staleGuard q cid) := by
  unfold staleGuard
  cases q.getLast? <;> infer_instance

/-- The code after the loop of gatherHistogram: push a fresh incomplete
contribution onto an empty queue; publish an incoming contribution that is
complete on its own (without trimming the queue); otherwise drop the back
(oldest) entry when the queue length exceeds latency + 1. -/
def gatherTail (st : HistogramAggregator) (vh : ViewHistogram)
    (q : List ViewHistogram) : HistogramAggregator :=
  if q = [] ∧ ¬vh.isComplete then { st with queue := q ++ [vh] }
  else if vh.isComplete then
    if st.lastHistogram = vh.histogram then { st with queue := q }
    else
      { st with
        queue := q
        lastHistogram := vh.histogram
        published := st.published ++ [(vh.id, vh.histogram)] }
  else if q.length > st.latency + 1 then { st with queue := q.dropLast }
  else { st with queue := q }

/-- EventHandler::Impl::gatherHistogram. -/
def gatherHistogram (st : HistogramAggregator) (h : Histogram) (area : ℚ)
    (currentId : Nat) : HistogramAggregator :=
  if staleGuard st.queue currentId then st
  else
    let vh : ViewHistogram := ⟨h, area, currentId⟩
    match gatherLoop vh st.lastHistogram st.published st.queue with
    | LoopRes.ret q l p =>
        { st with queue := q, lastHistogram := l, published := p }
    | LoopRes.brk q => gatherTail st vh q
    | LoopRes.done q => gatherTail st vh q

/-! ## Visibility ordering (RayCastRenderer::Impl::order, DistanceOperator) -/

/-- An octree brick key; the packed representation is irrelevant to the
ordering claims, only identity matters. -/
abbrev NodeId := Nat

/-- Components of a 3D float vector, as exact rationals. -/
structure Vector3f where
  x : ℚ
  y : ℚ
  z : ℚ
deriving DecidableEq

/-- An axis-aligned world-space box. -/
structure Boxf where
  boxMin : Vector3f
  boxMax : Vector3f
deriving DecidableEq

/-- Boxf::getCenter. -/
def Boxf.getCenter (b : Boxf) : Vector3f :=
  ⟨(b.boxMin.x + b.boxMax.x) / 2, (b.boxMin.y + b.boxMax.y) / 2,
   (b.boxMin.z + b.boxMax.z) / 2⟩

/-- LODNode metadata used by the renderer: world-space bounding box and
refinement level. -/
structure LODNode where
  worldBox : Boxf
  refLevel : Nat
deriving DecidableEq

/-- The top three rows of a 4x4 model-view matrix (row major).  A
model-view matrix is affine, so its last row is 0 0 0 1 and the product
with a point (x, y, z, 1) is the affine map below. -/
structure Matrix4f where
  m00 : ℚ
  m01 : ℚ
  m02 : ℚ
  m03 : ℚ
  m10 : ℚ
  m11 : ℚ
  m12 : ℚ
  m13 : ℚ
  m20 : ℚ
  m21 : ℚ
  m22 : ℚ
  m23 : ℚ
deriving DecidableEq

/-- Matrix4f * Vector3f : the point is transformed with implicit w = 1. -/
def mvApply (m : Matrix4f) (v : Vector3f) : Vector3f :=
  ⟨m.m00 * v.x + m.m01 * v.y + m.m02 * v.z + m.m03,
   m.m10 * v.x + m.m11 * v.y + m.m12 * v.z + m.m13,
   m.m20 * v.x + m.m21 * v.y + m.m22 * v.z + m.m23⟩

/-- The frustum data used by order: the model-view matrix. -/
structure Frustum where
  mvMatrix : Matrix4f
deriving DecidableEq

/-- DataSource::getNode. -/
abbrev DataSource := NodeId → LODNode

/-- Squared Euclidean length of a vector. -/
def lengthSq (v : Vector3f) : ℚ := v.x ^ 2 + v.y ^ 2 + v.z ^ 2

/-- The squared distance computed by DistanceOperator: the squared length
of the model-view transformed world-box center of the node.  The code
compares Euclidean lengths; the square root is strictly monotone on
nonnegative values, so comparing squared lengths decides exactly the same
comparator. -/
def distanceSq (ds : DataSource) (f : Frustum) (n : NodeId) : ℚ :=
  lengthSq (mvApply f.mvMatrix ((ds n).worldBox.getCenter))

/-- DistanceOperator::operator() : strictly closer to the viewpoint. -/
def distanceLt (ds : DataSource) (f : Frustum) (a b : NodeId) : Prop :=
  distanceSq ds f a < distanceSq ds f b

instance (ds : DataSource) (f : Frustum) (a b : NodeId) :
    Decidable (distanceLt ds f a b) := by
  unfold distanceLt
  infer_instance

/-- The contract of the std::sort call inside order: the returned sequence
is some permutation of the input in which no later element compares
strictly below an earlier one.  The C++ standard leaves the order of
equivalent elements unspecified (std::sort, unlike std::stable_sort, is
not stable), so order is modelled by this relation over its possible
outputs rather than by one function. -/
def isOrderResult (ds : DataSource) (f : Frustum)
    (bricks out : List NodeId) : Prop :=
  out.Perm bricks ∧ out.Pairwise (fun a b => ¬distanceLt ds f b a)

/-- Follows the claim wording, for comparison with isOrderResult: the
stable ascending sort by distance, realised as a stable insertion sort (an
element is inserted behind every already placed element that does not
compare strictly above it). -/
def insertByDistance (ds : DataSource) (f : Frustum) (n : NodeId) :
    List NodeId → List NodeId
  | [] => [n]
  | m :: rest =>
    if distanceLt ds f n m then n :: m :: rest
    else m :: insertByDistance ds f n rest

/-- Follows the claim wording: the stable sort of the bricks ascending by
distance, ties keeping their input order. -/
def orderStable (ds : DataSource) (f : Frustum) (bricks : List NodeId) :
    List NodeId :=
  bricks.foldl (fun acc n => insertByDistance ds f n acc) []

/-! ## Adaptive sample rate (RayCastRenderer::Impl::onFrameStart) -/

/-- Constant from RayCastRenderer: passed to the shader as the
maxSamplesPerRay uniform. -/
def maxSamplesPerRay : Nat := 32

/-- Constant from RayCastRenderer: lower bound of the automatic sample
count. -/
def minSamplesPerRay : Nat := 512

/-- The maxLOD loop of onFrameStart: the finest refinement level among the
render bricks of the frame (0 when there are none). -/
def maxLODOf (levels : List Nat) : Nat := levels.foldl max 0

/-- The sample-rate computation of onFrameStart.  When the configured
samples-per-ray is 0, the Nyquist heuristic value
max(maxVoxelDim / 2 ^ (treeDepth - maxLOD - 1), minSamplesPerRay) is
computed in float arithmetic and assigned to the uint32_t counter
(truncation toward zero, the value is nonnegative); a nonzero configured
value is kept unchanged.  levels are the refinement levels of the render
bricks, maxVoxelDim is volInfo.voxels.find_max() and treeDepth is
volInfo.rootNode.getDepth(). -/
def computedSamplesPerRayAtFrameStart (nSamplesPerRay : Nat)
    (levels : List Nat) (maxVoxelDim treeDepth : Nat) : Nat :=
  if nSamplesPerRay = 0 then
    let maxLOD := maxLODOf levels
    let maxVoxelsAtLOD : ℚ :=
      (maxVoxelDim : ℚ) / (2 : ℚ) ^ (treeDepth - maxLOD - 1)
    ⌊max maxVoxelsAtLOD ((minSamplesPerRay : Nat) : ℚ)⌋₊
  else nSamplesPerRay

/-- Follows the claim wording, for comparison with the code: the same
formula additionally clamped to the implementation maximum
maxSamplesPerRay named by the claim. -/
def sampleRateClampedSpec (nSamplesPerRay : Nat) (levels : List Nat)
    (maxVoxelDim treeDepth : Nat) : Nat :=
  if nSamplesPerRay = 0 then
    min (computedSamplesPerRayAtFrameStart 0 levels maxVoxelDim treeDepth)
      maxSamplesPerRay
  else nSamplesPerRay

/-! ## Volume data element types (RayCastRenderer::Impl::onFrameStart) -/

/-- The volume data element type enumeration. -/
inductive DataType where
  | dtUInt8
  | dtUInt16
  | dtUInt32
  | dtFloat
  | dtInt8
  | dtInt16
  | dtInt32
  | dtUndefined
deriving DecidableEq

/-- Shader scalar kind selectors. -/
def SH_UINT : Nat := 0

/-- Shader scalar kind selector for signed integers. -/
def SH_INT : Nat := 1

/-- Shader scalar kind selector for floats. -/
def SH_FLOAT : Nat := 2

/-- numeric_limits of float: smallest positive normal value 2 ^ (-126). -/
def floatMin : ℚ := 1 / 2 ^ 126

/-- numeric_limits of float: largest finite value (2 ^ 24 - 1) * 2 ^ 104. -/
def floatMax : ℚ := (2 ^ 24 - 1) * 2 ^ 104

/-- The data-type switch of onFrameStart: for each of the seven supported
element types it selects the shader scalar kind and the full data source
range; DT_UNDEFINED (and the default case) throws a runtime error, which
the embedding renders as an Except error. -/
def selectShaderDataType : DataType → Except String (Nat × ℚ × ℚ)
  | DataType.dtUInt8 => Except.ok (SH_UINT, 0, 255)
  | DataType.dtUInt16 => Except.ok (SH_UINT, 0, 65535)
  | DataType.dtUInt32 => Except.ok (SH_UINT, 0, 4294967295)
  | DataType.dtFloat => Except.ok (SH_FLOAT, floatMin, floatMax)
  | DataType.dtInt8 => Except.ok (SH_INT, -128, 127)
  | DataType.dtInt16 => Except.ok (SH_INT, -32768, 32767)
  | DataType.dtInt32 => Except.ok (SH_INT, -2147483648, 2147483647)
  | DataType.dtUndefined => Except.error "Unsupported type in the shader."

/-! ## Frame rendering (RayCastRenderer::Impl::onFrameRender) -/

/-- The texture state cached for a brick: the GL texture id. -/
structure TextureState where
  textureId : Nat
deriving DecidableEq

/-- The sentinel id marking an invalid texture.  Its concrete value is
irrelevant to the claims, which depend only on equality with the
sentinel. -/
def INVALID_TEXTURE_ID : Nat := 0

/-- The texture cache as seen by renderBrick: the texture state obtained
for a brick id. -/
abbrev TextureCache := NodeId → TextureState

/-- The renderer trace state: the visible-node list rebuilt by each
onFrameRender call, and the used-texture list of the current frame slot
(cleared elsewhere, in onFrameEnd). -/
structure RenderTraceState where
  visibleNodes : List NodeId
  usedTextures : List Nat
deriving DecidableEq

/-- RayCastRenderer::Impl::renderBrick : a brick whose cached texture id is
the invalid sentinel is skipped entirely (an error is logged and nothing
is drawn); otherwise its texture id and node id are recorded and its VBO
range is drawn. -/
def renderBrick (cache : TextureCache) (st : RenderTraceState)
    (rb : NodeId) : RenderTraceState :=
  if (cache rb).textureId = INVALID_TEXTURE_ID then st
  else
    { visibleNodes := st.visibleNodes ++ [rb]
      usedTextures := st.usedTextures ++ [(cache rb).textureId] }

/-- RayCastRenderer::Impl::onFrameRender : clears the visible-node list and
renders every brick of the input in input order. -/
def onFrameRender (cache : TextureCache) (st : RenderTraceState)
    (bricks : List NodeId) : RenderTraceState :=
  bricks.foldl (renderBrick cache) { st with visibleNodes := [] }

/-! ## Helper lemmas -/

lemma gather_guard_noop (st : HistogramAggregator) (h : Histogram) (a : ℚ)
    (cid : Nat) (hg : staleGuard st.queue cid) :
    gatherHistogram st h a cid = st := by
  unfold gatherHistogram
  rw [if_pos hg]

lemma staleGuard_not_of_le (q : List ViewHistogram) (cid : Nat)
    (h : ∀ b, q.getLast? = some b → b.id ≤ cid) : ¬staleGuard q cid := by
  unfold staleGuard
  cases hq : q.getLast? with
  | none => exact not_false
  | some b => exact Nat.not_lt.mpr (h b hq)

lemma getLast?_id_le (fore aft : List ViewHistogram) (e : ViewHistogram)
    (cid : Nat) (he : e.id ≤ cid) (haft : ∀ x ∈ aft, x.id ≤ cid) :
    ∀ b, (fore ++ e :: aft).getLast? = some b → b.id ≤ cid := by
  intro b hb
  rw [List.getLast?_append_of_ne_nil _ (by simp)] at hb
  have hbm : b ∈ e :: aft := by
    obtain ⟨hne, heq⟩ :=
      List.mem_getLast?_eq_getLast (show b ∈ (e :: aft).getLast? from hb)
    rw [heq]
    exact List.getLast_mem hne
  rcases List.mem_cons.mp hbm with h1 | h2
  · rw [h1]
    exact he
  · exact haft b h2

lemma histAdd_histAdd_right (h a b : Histogram) :
    histAdd (histAdd h a) b = histAdd (histAdd h b) a := by
  induction h generalizing a b with
  | nil => simp [histAdd]
  | cons x xs ih =>
    cases a with
    | nil => cases b <;> simp [histAdd]
    | cons y ys =>
      cases b with
      | nil => simp [histAdd]
      | cons z zs =>
        simp only [histAdd, List.zipWith, List.cons.injEq]
        exact ⟨by omega, ih ys zs⟩

lemma vhAdd_right_comm (e u v : ViewHistogram) :
    vhAdd (vhAdd e u) v = vhAdd (vhAdd e v) u := by
  simp only [vhAdd, ViewHistogram.mk.injEq]
  exact ⟨histAdd_histAdd_right _ _ _, by ring, trivial⟩

lemma gatherLoop_skip (vh : ViewHistogram) (last : Histogram)
    (pub : List (Nat × Histogram)) (fore rest : List ViewHistogram)
    (hf : ∀ x ∈ fore, vh.id < x.id ∧ ¬x.isComplete) :
    gatherLoop vh last pub (fore ++ rest) =
      match gatherLoop vh last pub rest with
      | LoopRes.ret q l p => LoopRes.ret (fore ++ q) l p
      | LoopRes.brk q => LoopRes.brk (fore ++ q)
      | LoopRes.done q => LoopRes.done (fore ++ q) := by
  induction fore with
  | nil =>
    simp only [List.nil_append]
    cases gatherLoop vh last pub rest <;> rfl
  | cons d ds ih =>
    have hd := hf d (by simp)
    have hds : ∀ x ∈ ds, vh.id < x.id ∧ ¬x.isComplete := fun x hx =>
      hf x (by simp [hx])
    have hne : ¬(vh.id = d.id) := Nat.ne_of_lt hd.1
    have hngt : ¬(d.id < vh.id) := Nat.lt_asymm hd.1
    simp only [List.cons_append, gatherLoop, if_neg hne, if_neg hngt,
      if_neg hd.2]
    rw [show List.append ds rest = ds ++ rest from rfl, ih hds]
    cases gatherLoop vh last pub rest <;> rfl

lemma gatherLoop_merge (vh : ViewHistogram) (last : Histogram)
    (pub : List (Nat × Histogram)) (e : ViewHistogram)
    (aft : List ViewHistogram) (hid : vh.id = e.id) :
    gatherLoop vh last pub (e :: aft) =
      if (vhAdd e vh).isComplete then
        LoopRes.ret []
          (publishIfChanged last pub (vhAdd e vh).histogram (vhAdd e vh).id).1
          (publishIfChanged last pub (vhAdd e vh).histogram (vhAdd e vh).id).2
      else LoopRes.brk (vhAdd e vh :: aft) := by
  simp only [gatherLoop, if_pos hid]

lemma gatherLoop_length_bound (vh : ViewHistogram) (last : Histogram)
    (pub : List (Nat × Histogram)) (q : List ViewHistogram) :
    (match gatherLoop vh last pub q with
     | LoopRes.ret q2 _ _ => q2.length ≤ q.length
     | LoopRes.brk q2 => q2.length ≤ q.length + 1
     | LoopRes.done q2 => q2 = q : Prop) := by
  induction q with
  | nil => simp [gatherLoop]
  | cons d rest ih =>
    unfold gatherLoop
    by_cases h1 : vh.id = d.id
    · rw [if_pos h1]
      by_cases h2 : (vhAdd d vh).isComplete
      · simp [h2]
      · simp [h2]
    · rw [if_neg h1]
      by_cases h2 : d.id < vh.id
      · rw [if_pos h2]
        by_cases h3 : d.isComplete
        · simp [h3]
        · simp [h3]
      · rw [if_neg h2]
        by_cases h3 : d.isComplete
        · simp [h3]
        · rw [if_neg h3]
          cases hres : gatherLoop vh last pub rest with
          | ret q2 l p =>
            rw [hres] at ih
            simpa using Nat.succ_le_succ ih
          | brk q2 =>
            rw [hres] at ih
            simpa using Nat.succ_le_succ ih
          | done q2 =>
            rw [hres] at ih
            simp [ih]

lemma natFloor_max_natCast (x : ℚ) (m : Nat) :
    ⌊max x (m : ℚ)⌋₊ = max ⌊x⌋₊ m := by
  rcases le_total x (m : ℚ) with hle | hle
  · have h1 : ⌊x⌋₊ ≤ m := by
      have h2 := Nat.floor_le_floor hle
      rwa [Nat.floor_natCast] at h2
    rw [max_eq_right hle, Nat.floor_natCast, max_eq_right h1]
  · have h1 : m ≤ ⌊x⌋₊ := Nat.le_floor hle
    rw [max_eq_left hle, max_eq_left h1]

lemma foldl_renderBrick_eq (cache : TextureCache) (bricks : List NodeId)
    (st : RenderTraceState) :
    bricks.foldl (renderBrick cache) st =
      { visibleNodes := st.visibleNodes ++
          bricks.filter (fun b => (cache b).textureId ≠ INVALID_TEXTURE_ID)
        usedTextures := st.usedTextures ++
          (bricks.filter
              (fun b => (cache b).textureId ≠ INVALID_TEXTURE_ID)).map
            (fun b => (cache b).textureId) } := by
  induction bricks generalizing st with
  | nil => simp
  | cons b bs ih =>
    by_cases hb : (cache b).textureId = INVALID_TEXTURE_ID
    · simp [List.foldl_cons, renderBrick, hb, ih]
    · simp [List.foldl_cons, renderBrick, hb, ih]

/-! ## Shared concrete states and inputs used by witnesses and
counterexamples -/

/-- An aggregator start state: last histogram [0], nothing published,
latency 2, empty queue. -/
def aggInit : HistogramAggregator := ⟨[0], [], 2, []⟩

/-- An aggregator start state with latency 0. -/
def aggInitL0 : HistogramAggregator := ⟨[0], [], 0, []⟩

/-- State reached from aggInit by one incomplete contribution for frame
10: queue holds the single entry (histogram [1], area 1/2, id 10). -/
def aggC3 : HistogramAggregator := gatherHistogram aggInit [1] (1/2) 10

/-- State reached from aggC3 by a complete contribution (area 1) for the
newer frame 11: the incoming histogram [2] is published for frame 11 while
the inserted complete entry and the older entry both stay in the queue. -/
def aggC8 : HistogramAggregator := gatherHistogram aggC3 [2] 1 11

/-- A data source with two nodes at equal distance from the origin: node 0
sits at (1, 0, 0), every other node at (0, 1, 0) (degenerate boxes whose
center is the given point). -/
def dsPair : DataSource := fun n =>
  if n = 0 then ⟨⟨⟨1, 0, 0⟩, ⟨1, 0, 0⟩⟩, 0⟩ else ⟨⟨⟨0, 1, 0⟩, ⟨0, 1, 0⟩⟩, 0⟩

/-- A frustum whose model-view matrix is the identity. -/
def frId : Frustum := ⟨⟨1, 0, 0, 0, 0, 1, 0, 0, 0, 0, 1, 0⟩⟩

lemma dsPair_not_lt_01 : ¬distanceLt dsPair frId 0 1 := by
  norm_num [distanceLt, distanceSq, lengthSq, mvApply, Boxf.getCenter,
    dsPair, frId]

lemma dsPair_not_lt_10 : ¬distanceLt dsPair frId 1 0 := by
  norm_num [distanceLt, distanceSq, lengthSq, mvApply, Boxf.getCenter,
    dsPair, frId]

/-! ## Claim theorems -/

/-- Claim C1, counterexample: with two candidates at equal distance, the
swapped output [1, 0] satisfies the std::sort contract of order, yet it is
not the stable sort of the input [0, 1] (which keeps the tied input order
[0, 1]); hence order is not guaranteed to return the stable-sorted
permutation. -/
theorem order_not_stable_cex :
    isOrderResult dsPair frId [0, 1] [1, 0] ∧
    [1, 0] ≠ orderStable dsPair frId [0, 1] := by
  refine ⟨⟨List.Perm.swap _ _ _, ?_⟩, ?_⟩
  · simp [dsPair_not_lt_01]
  · have hs : orderStable dsPair frId [0, 1] = [0, 1] := by
      simp [orderStable, insertByDistance, dsPair_not_lt_10]
    rw [hs]
    simp

/-- Claim C1 theorem (amended): order returns a permutation of the input
sorted ascending by the distance of the model-view transformed world-box
center; the sequence of distances along the output is uniquely determined
by the input, but candidates with equal distance may appear in any order
(std::sort gives no stability guarantee).  Formally: any two outputs
admitted by the std::sort contract carry the same distance sequence. -/
theorem order_distances_deterministic (ds : DataSource) (f : Frustum)
    (bricks out1 out2 : List NodeId)
    (h1 : isOrderResult ds f bricks out1)
    (h2 : isOrderResult ds f bricks out2) :
    out1.map (distanceSq ds f) = out2.map (distanceSq ds f) := by
  have hmono : ∀ out : List NodeId,
      out.Pairwise (fun a b => ¬distanceLt ds f b a) →
      (out.map (distanceSq ds f)).Sorted (· ≤ ·) := by
    intro out hp
    rw [List.Sorted, List.pairwise_map]
    exact hp.imp fun hab => le_of_not_lt hab
  exact List.eq_of_perm_of_sorted ((h1.1.map _).trans (h2.1.map _).symm)
    (hmono _ h1.2) (hmono _ h2.2)

/-- Witness for order_distances_deterministic at a concrete input: both
[0, 1] and [1, 0] are admissible outputs of order on [0, 1], and their
distance sequences agree. -/
theorem order_distances_deterministic_witness :
    isOrderResult dsPair frId [0, 1] [0, 1] ∧
    isOrderResult dsPair frId [0, 1] [1, 0] ∧
    [0, 1].map (distanceSq dsPair frId) = [1, 0].map (distanceSq dsPair frId) := by
  have ha : isOrderResult dsPair frId [0, 1] [0, 1] :=
    ⟨List.Perm.refl _, by simp [dsPair_not_lt_10]⟩
  have hb : isOrderResult dsPair frId [0, 1] [1, 0] :=
    ⟨List.Perm.swap _ _ _, by simp [dsPair_not_lt_01]⟩
  exact ⟨ha, hb, order_distances_deterministic dsPair frId [0, 1] [0, 1] [1, 0] ha hb⟩

lemma mem_of_getLast?_eq {α : Type} (l : List α) (b : α)
    (hb : l.getLast? = some b) : b ∈ l := by
  obtain ⟨hne, heq⟩ :=
    List.mem_getLast?_eq_getLast (show b ∈ l.getLast? from hb)
  rw [heq]
  exact List.getLast_mem hne

/-- State with queue [(10, area 3/10), (8, area 2/5)] (front = newest),
reached from aggInit by contributions for frames 8 and then 10. -/
def aggQ2 : HistogramAggregator :=
  gatherHistogram (gatherHistogram aggInit [1] (2/5) 8) [2] (3/10) 10

lemma aggQ2_val :
    aggQ2 = ⟨[0], [], 2, [⟨[2], 3/10, 10⟩, ⟨[1], 2/5, 8⟩]⟩ := by
  have h1 : gatherHistogram aggInit [1] (2/5) 8 =
      ⟨[0], [], 2, [⟨[1], 2/5, 8⟩]⟩ := by
    norm_num [aggInit, gatherHistogram, staleGuard, gatherLoop, gatherTail,
      publishIfChanged, vhAdd, histAdd, ViewHistogram.isComplete, abs_le, List.cons_ne_nil]
  rw [aggQ2, h1]
  norm_num [gatherHistogram, staleGuard, gatherLoop, gatherTail,
    publishIfChanged, vhAdd, histAdd, ViewHistogram.isComplete, abs_le, List.cons_ne_nil]

/-- Claim C2, counterexample: with queue ids [10, 8] the newest queued
frame id is 10; the incoming contribution carries frame id 8, older than
that newest id, so the claim demands a no-op.  The code only rejects ids
below the OLDEST (back) queue entry, so the contribution is merged into
the entry for frame 8 and the queue changes. -/
theorem gather_stale_claim_cex :
    aggQ2.queue = [⟨[2], 3/10, 10⟩, ⟨[1], 2/5, 8⟩] ∧ 8 < 10 ∧
    (gatherHistogram aggQ2 [4] (1/5) 8).queue =
      [⟨[2], 3/10, 10⟩, ⟨[5], 3/5, 8⟩] := by
  rw [aggQ2_val]
  refine ⟨rfl, by norm_num, ?_⟩
  norm_num [gatherHistogram, staleGuard, gatherLoop, gatherTail,
    publishIfChanged, vhAdd, histAdd, ViewHistogram.isComplete, abs_le, List.cons_ne_nil]

/-- Claim C2 theorem (amended): the stale-contribution guard compares
against the oldest, not the newest, queued frame id: whenever the queue is
nonempty and frameId is below the id of the back (oldest) entry, gather is
a no-op — queue, last-published histogram and publish log are unchanged. -/
theorem gather_below_oldest_noop (st : HistogramAggregator) (h : Histogram)
    (a : ℚ) (cid : Nat) (b : ViewHistogram)
    (hb : st.queue.getLast? = some b) (hlt : cid < b.id) :
    gatherHistogram st h a cid = st := by
  apply gather_guard_noop
  unfold staleGuard
  rw [hb]
  exact hlt

/-- A one-entry queue state used by witnesses. -/
def aggW1 : HistogramAggregator := ⟨[0], [], 2, [⟨[1], 2/5, 8⟩]⟩

/-- Witness for gather_below_oldest_noop: a contribution for frame 5
against a queue whose oldest entry is frame 8 leaves the state unchanged. -/
theorem gather_below_oldest_noop_witness :
    aggW1.queue.getLast? = some ⟨[1], 2/5, 8⟩ ∧ 5 < 8 ∧
    gatherHistogram aggW1 [9] (1/2) 5 = aggW1 := by
  have h1 : aggW1.queue.getLast? = some ⟨[1], 2/5, 8⟩ := rfl
  have h2 : (5 : Nat) < 8 := by norm_num
  exact ⟨h1, h2, gather_below_oldest_noop _ _ _ _ _ h1 h2⟩

/-- Delivery of a list of contributions (histogram, area, frame id) to
gather, in list order. -/
def deliver (st : HistogramAggregator) (cs : List (Histogram × ℚ × Nat)) :
    HistogramAggregator :=
  cs.foldl (fun s c => gatherHistogram s c.1 c.2.1 c.2.2) st

/-- Claim C5, counterexample: the same two contributions for frame 7 — one
complete on its own (area 1), one partial (area 1/2) — delivered in the two
possible orders leave different final states: one order leaves the frame-7
entry at (histogram [2], area 1/2), the other at (histogram [3], area 3/2).
Completion mid-sequence makes gather order dependent. -/
theorem gather_not_perm_invariant_cex :
    ([([1], (1 : ℚ), 7), ([2], (1/2 : ℚ), 7)] :
        List (Histogram × ℚ × Nat)).Perm
      [([2], (1/2 : ℚ), 7), ([1], (1 : ℚ), 7)] ∧
    (deliver aggInit [([1], 1, 7), ([2], 1/2, 7)]).queue ≠
      (deliver aggInit [([2], 1/2, 7), ([1], 1, 7)]).queue := by
  constructor
  · exact List.Perm.swap _ _ _
  · have hA1 : gatherHistogram aggInit [1] 1 7 = ⟨[1], [(7, [1])], 2, []⟩ := by
      norm_num [aggInit, gatherHistogram, staleGuard, gatherLoop, gatherTail,
        publishIfChanged, vhAdd, histAdd, ViewHistogram.isComplete, abs_le, List.cons_ne_nil]
    have hA2 : gatherHistogram ⟨[1], [(7, [1])], 2, []⟩ [2] (1/2) 7 =
        ⟨[1], [(7, [1])], 2, [⟨[2], 1/2, 7⟩]⟩ := by
      norm_num [gatherHistogram, staleGuard, gatherLoop, gatherTail,
        publishIfChanged, vhAdd, histAdd, ViewHistogram.isComplete, abs_le, List.cons_ne_nil]
    have hB1 : gatherHistogram aggInit [2] (1/2) 7 =
        ⟨[0], [], 2, [⟨[2], 1/2, 7⟩]⟩ := by
      norm_num [aggInit, gatherHistogram, staleGuard, gatherLoop, gatherTail,
        publishIfChanged, vhAdd, histAdd, ViewHistogram.isComplete, abs_le, List.cons_ne_nil]
    have hB2 : gatherHistogram ⟨[0], [], 2, [⟨[2], 1/2, 7⟩]⟩ [1] 1 7 =
        ⟨[1], [(7, [1])], 2, [⟨[3], 3/2, 7⟩]⟩ := by
      norm_num [gatherHistogram, staleGuard, gatherLoop, gatherTail,
        publishIfChanged, vhAdd, histAdd, ViewHistogram.isComplete, abs_le, List.cons_ne_nil]
    show (gatherHistogram (gatherHistogram aggInit [1] 1 7) [2] (1/2) 7).queue ≠
      (gatherHistogram (gatherHistogram aggInit [2] (1/2) 7) [1] 1 7).queue
    rw [hA1, hA2, hB1, hB2]
    norm_num

/-- Claim C5 theorem (amended): the merge operation itself is insensitive
to arrival order: folding any permutation of a multiset of contributions
into one entry with the ViewHistogram merge (bucket-wise histogram sum,
area sum) yields the same merged entry.  Whole gather calls, however, are
not permutation invariant once a contribution completes the frame
mid-sequence (see the counterexample). -/
theorem vhAdd_foldl_perm_invariant (e : ViewHistogram)
    (l1 l2 : List ViewHistogram) (hp : l1.Perm l2) :
    l1.foldl vhAdd e = l2.foldl vhAdd e := by
  induction hp generalizing e with
  | nil => rfl
  | cons x _ ih =>
    simp only [List.foldl_cons]
    exact ih _
  | swap x y l =>
    simp only [List.foldl_cons, vhAdd_right_comm]
  | trans _ _ ih1 ih2 => exact (ih1 e).trans (ih2 e)

/-- Witness for vhAdd_foldl_perm_invariant: merging the two frame-7
contributions in either order gives the same merged entry. -/
theorem vhAdd_foldl_perm_invariant_witness :
    ([⟨[1], 1, 7⟩, ⟨[2], 1/2, 7⟩] : List ViewHistogram).Perm
      [⟨[2], 1/2, 7⟩, ⟨[1], 1, 7⟩] ∧
    ([⟨[1], 1, 7⟩, ⟨[2], 1/2, 7⟩] : List ViewHistogram).foldl vhAdd
        ⟨[0], 0, 7⟩ =
      ([⟨[2], 1/2, 7⟩, ⟨[1], 1, 7⟩] : List ViewHistogram).foldl vhAdd
        ⟨[0], 0, 7⟩ := by
  have hp : ([⟨[1], 1, 7⟩, ⟨[2], 1/2, 7⟩] : List ViewHistogram).Perm
      [⟨[2], 1/2, 7⟩, ⟨[1], 1, 7⟩] := List.Perm.swap _ _ _
  exact ⟨hp, vhAdd_foldl_perm_invariant ⟨[0], 0, 7⟩ _ _ hp⟩

/-- State reached from aggInit by two half contributions for frame 7: the
merged entry completes, histogram [3] is published for frame 7 and the
queue is emptied. -/
def aggC6 : HistogramAggregator :=
  gatherHistogram (gatherHistogram aggInit [1] (1/2) 7) [2] (1/2) 7

/-- Claim C6, counterexample: frame 7 has been published as complete
(publish log [(7, [3])]) and its queue entry discarded (queue empty).  A
late contribution for the same frame 7 with area 1 and a differing
histogram [5] triggers a second publish for frame 7. -/
theorem gather_second_publish_cex :
    aggC6.published = [(7, [3])] ∧ aggC6.queue = [] ∧
    (gatherHistogram aggC6 [5] 1 7).published = [(7, [3]), (7, [5])] := by
  have h1 : gatherHistogram aggInit [1] (1/2) 7 =
      ⟨[0], [], 2, [⟨[1], 1/2, 7⟩]⟩ := by
    norm_num [aggInit, gatherHistogram, staleGuard, gatherLoop, gatherTail,
      publishIfChanged, vhAdd, histAdd, ViewHistogram.isComplete, abs_le, List.cons_ne_nil]
  have h2 : aggC6 = ⟨[3], [(7, [3])], 2, []⟩ := by
    rw [aggC6, h1]
    norm_num [gatherHistogram, staleGuard, gatherLoop, gatherTail,
      publishIfChanged, vhAdd, histAdd, ViewHistogram.isComplete, abs_le, List.cons_ne_nil]
  rw [h2]
  refine ⟨rfl, rfl, ?_⟩
  norm_num [gatherHistogram, staleGuard, gatherLoop, gatherTail,
    publishIfChanged, vhAdd, histAdd, ViewHistogram.isComplete, abs_le, List.cons_ne_nil]

/-- Claim C6 theorem (amended): after a frame is published and its entry
erased, a late contribution for it is rejected as long as the queue still
holds an entry — every surviving entry is strictly newer, and the guard
then fires; in particular no second publish happens.  When the queue has
become empty the guard cannot fire and a late contribution can re-enter
and republished (see the counterexample). -/
theorem gather_all_newer_noop (st : HistogramAggregator) (h : Histogram)
    (a : ℚ) (cid : Nat) (hne : st.queue ≠ [])
    (hall : ∀ x ∈ st.queue, cid < x.id) :
    gatherHistogram st h a cid = st := by
  apply gather_guard_noop
  unfold staleGuard
  cases hq : st.queue.getLast? with
  | none =>
    rw [List.getLast?_eq_none_iff] at hq
    exact absurd hq hne
  | some b => exact hall b (mem_of_getLast?_eq _ _ hq)

/-- Witness for gather_all_newer_noop: a late contribution for frame 5
against a queue holding only the newer frame 8 is a no-op. -/
theorem gather_all_newer_noop_witness :
    aggW1.queue ≠ [] ∧ (∀ x ∈ aggW1.queue, 5 < x.id) ∧
    gatherHistogram aggW1 [7] 1 5 = aggW1 := by
  have h1 : aggW1.queue ≠ [] := by simp [aggW1]
  have h2 : ∀ x ∈ aggW1.queue, 5 < x.id := by
    intro x hx
    simp only [aggW1, List.mem_singleton] at hx
    rw [hx]
    norm_num
  exact ⟨h1, h2, gather_all_newer_noop _ _ _ _ h1 h2⟩

/-- Claim C9 (confirmed): the undefined data element type is rejected with
the runtime error of the source, and exactly the seven supported
integer/float element types succeed — the data-type switch fails if and
only if the type is DT_UNDEFINED. -/
theorem unsupported_data_type_is_error :
    selectShaderDataType DataType.dtUndefined
        = Except.error "Unsupported type in the shader." ∧
    ∀ dt : DataType,
      (selectShaderDataType dt).isOk = (dt != DataType.dtUndefined) := by
  refine ⟨rfl, ?_⟩
  intro dt
  cases dt <;> rfl

/-- Claim C10 (confirmed): after onFrameRender, the visible-node list is
exactly the input bricks, in input order, whose cached texture id is
valid; a brick with the invalid sentinel id is skipped (nothing recorded,
nothing drawn) without stopping the remaining bricks, and the used-texture
log gains exactly the texture ids of the valid bricks. -/
theorem onFrameRender_visible_filter (cache : TextureCache)
    (st : RenderTraceState) (bricks : List NodeId) :
    (onFrameRender cache st bricks).visibleNodes =
      bricks.filter (fun b => (cache b).textureId ≠ INVALID_TEXTURE_ID) ∧
    (onFrameRender cache st bricks).usedTextures =
      st.usedTextures ++
        (bricks.filter
            (fun b => (cache b).textureId ≠ INVALID_TEXTURE_ID)).map
          (fun b => (cache b).textureId) := by
  unfold onFrameRender
  rw [foldl_renderBrick_eq]
  exact ⟨rfl, rfl⟩

lemma aggC3_val : aggC3 = ⟨[0], [], 2, [⟨[1], 1/2, 10⟩]⟩ := by
  norm_num [aggC3, aggInit, gatherHistogram, staleGuard, gatherLoop,
    gatherTail, publishIfChanged, vhAdd, histAdd, ViewHistogram.isComplete,
    abs_le, List.cons_ne_nil]

lemma aggC8_val :
    aggC8 = ⟨[2], [(11, [2])], 2, [⟨[2], 1, 11⟩, ⟨[1], 1/2, 10⟩]⟩ := by
  rw [aggC8, aggC3_val]
  norm_num [gatherHistogram, staleGuard, gatherLoop, gatherTail,
    publishIfChanged, vhAdd, histAdd, ViewHistogram.isComplete, abs_le,
    List.cons_ne_nil]

/-- Claim C3, counterexample: a gather call bringing the frame-11 entry to
summed area exactly 1 (a fresh complete contribution inserted ahead of the
incomplete frame-10 entry) publishes the merged histogram [2] for frame
11 — but the completed entry is NOT removed from the queue, and neither is
the older frame-10 entry: the early-return publish path skips the erase. -/
theorem gather_complete_insert_cex :
    (gatherHistogram aggC3 [2] 1 11).published = [(11, [2])] ∧
    (gatherHistogram aggC3 [2] 1 11).queue =
      [⟨[2], 1, 11⟩, ⟨[1], 1/2, 10⟩] := by
  show aggC8.published = _ ∧ aggC8.queue = _
  rw [aggC8_val]
  exact ⟨rfl, rfl⟩

/-- Claim C3 theorem (amended): when the completing merge lands in an
EXISTING queue entry (frameId already queued, every newer entry ahead of
it incomplete), the claim holds exactly: the merged histogram is published
if and only if it differs from the last published histogram, and the
entry together with every older entry is removed from the queue.  (A
complete contribution arriving under a frame id that is not yet queued is
published-if-different but its entry is not removed — see the
counterexample.) -/
theorem gather_merge_complete_publishes (st : HistogramAggregator)
    (h : Histogram) (a : ℚ) (cid : Nat)
    (fore aft : List ViewHistogram) (e : ViewHistogram)
    (hq : st.queue = fore ++ e :: aft)
    (hid : e.id = cid)
    (hfore : ∀ x ∈ fore, cid < x.id ∧ ¬x.isComplete)
    (haft : ∀ x ∈ aft, x.id ≤ cid)
    (hm : (vhAdd e ⟨h, a, cid⟩).isComplete) :
    gatherHistogram st h a cid =
      { st with
        queue := fore
        lastHistogram := (publishIfChanged st.lastHistogram st.published
          (vhAdd e ⟨h, a, cid⟩).histogram cid).1
        published := (publishIfChanged st.lastHistogram st.published
          (vhAdd e ⟨h, a, cid⟩).histogram cid).2 } := by
  have hng : ¬staleGuard st.queue cid := by
    rw [hq]
    exact staleGuard_not_of_le _ _ (getLast?_id_le _ _ _ _ (le_of_eq hid) haft)
  unfold gatherHistogram
  rw [if_neg hng]
  show (match gatherLoop ⟨h, a, cid⟩ st.lastHistogram st.published st.queue with
    | LoopRes.ret q l p =>
        { st with queue := q, lastHistogram := l, published := p }
    | LoopRes.brk q => gatherTail st ⟨h, a, cid⟩ q
    | LoopRes.done q => gatherTail st ⟨h, a, cid⟩ q) = _
  rw [hq, gatherLoop_skip _ _ _ _ _ hfore,
    gatherLoop_merge _ _ _ _ _
      (show (⟨h, a, cid⟩ : ViewHistogram).id = e.id from hid.symm),
    if_pos hm,
    show (vhAdd e ⟨h, a, cid⟩).id = cid from hid]
  simp

/-- Witness for gather_merge_complete_publishes: merging the second half
contribution for frame 8 into its queued entry behind the newer incomplete
frame-10 entry completes frame 8, publishes the merged histogram [3] and
erases the frame-8 entry, keeping only the newer entry. -/
theorem gather_merge_complete_publishes_witness :
    aggQ2.queue = [⟨[2], 3/10, 10⟩] ++ ⟨[1], 2/5, 8⟩ :: [] ∧
    (vhAdd ⟨[1], 2/5, 8⟩ ⟨[2], 3/5, 8⟩).isComplete ∧
    gatherHistogram aggQ2 [2] (3/5) 8 =
      { aggQ2 with
        queue := [⟨[2], 3/10, 10⟩]
        lastHistogram := (publishIfChanged aggQ2.lastHistogram
          aggQ2.published (vhAdd ⟨[1], 2/5, 8⟩ ⟨[2], 3/5, 8⟩).histogram 8).1
        published := (publishIfChanged aggQ2.lastHistogram aggQ2.published
          (vhAdd ⟨[1], 2/5, 8⟩ ⟨[2], 3/5, 8⟩).histogram 8).2 } := by
  have hq : aggQ2.queue = [⟨[2], 3/10, 10⟩] ++ ⟨[1], 2/5, 8⟩ :: [] := by
    rw [aggQ2_val]
    rfl
  have hm : (vhAdd ⟨[1], 2/5, 8⟩ ⟨[2], 3/5, 8⟩ : ViewHistogram).isComplete := by
    norm_num [vhAdd, ViewHistogram.isComplete, abs_le]
  refine ⟨hq, hm, ?_⟩
  refine gather_merge_complete_publishes aggQ2 [2] (3/5) 8
    [⟨[2], 3/10, 10⟩] [] ⟨[1], 2/5, 8⟩ hq rfl ?_ ?_ hm
  · intro x hx
    rw [List.mem_singleton] at hx
    rw [hx]
    norm_num [ViewHistogram.isComplete, abs_le]
  · intro x hx
    exact absurd hx (List.not_mem_nil x)

/-- Claim C8, counterexample: state aggC8 (reachable from an empty queue)
holds a stale complete entry for frame 11 ahead of the incomplete entry
for frame 10.  A contribution for frame 10 — whose entry exists in the
queue — is NOT merged into it: walking the queue re-detects the complete
frame-11 entry, erases it and everything older, and drops the
contribution; the queue is left empty and nothing new is published. -/
theorem gather_merge_dropped_cex :
    aggC8.queue = [⟨[2], 1, 11⟩, ⟨[1], 1/2, 10⟩] ∧
    (gatherHistogram aggC8 [1] (1/10) 10).queue = [] ∧
    (gatherHistogram aggC8 [1] (1/10) 10).published = aggC8.published := by
  rw [aggC8_val]
  refine ⟨rfl, ?_, ?_⟩ <;>
    norm_num [gatherHistogram, staleGuard, gatherLoop, gatherTail,
      publishIfChanged, vhAdd, histAdd, ViewHistogram.isComplete, abs_le,
      List.cons_ne_nil]

/-- Claim C8 theorem (amended): provided every newer entry ahead of the
matching entry is incomplete (the invariant-respecting case; a stale
complete entry short-circuits the walk, see the counterexample), a gather
call whose frame id already has a queue entry merges the contribution into
that entry by bucket-wise histogram sum and area sum, creates no new
entry, and — when the merged entry is not complete — leaves the rest of
the queue unchanged. -/
theorem gather_merges_existing_entry (st : HistogramAggregator)
    (h : Histogram) (a : ℚ) (cid : Nat)
    (fore aft : List ViewHistogram) (e : ViewHistogram)
    (hq : st.queue = fore ++ e :: aft)
    (hid : e.id = cid)
    (hfore : ∀ x ∈ fore, cid < x.id ∧ ¬x.isComplete)
    (haft : ∀ x ∈ aft, x.id ≤ cid)
    (hm : ¬(vhAdd e ⟨h, a, cid⟩).isComplete)
    (hlen : st.queue.length ≤ st.latency + 1) :
    (gatherHistogram st h a cid).queue = fore ++ vhAdd e ⟨h, a, cid⟩ :: aft := by
  have hng : ¬staleGuard st.queue cid := by
    rw [hq]
    exact staleGuard_not_of_le _ _ (getLast?_id_le _ _ _ _ (le_of_eq hid) haft)
  unfold gatherHistogram
  rw [if_neg hng]
  show ((match gatherLoop ⟨h, a, cid⟩ st.lastHistogram st.published st.queue with
    | LoopRes.ret q l p =>
        { st with queue := q, lastHistogram := l, published := p }
    | LoopRes.brk q => gatherTail st ⟨h, a, cid⟩ q
    | LoopRes.done q => gatherTail st ⟨h, a, cid⟩ q) :
      HistogramAggregator).queue = _
  rw [hq, gatherLoop_skip _ _ _ _ _ hfore,
    gatherLoop_merge _ _ _ _ _
      (show (⟨h, a, cid⟩ : ViewHistogram).id = e.id from hid.symm),
    if_neg hm]
  show (gatherTail st ⟨h, a, cid⟩ (fore ++ vhAdd e ⟨h, a, cid⟩ :: aft)).queue = _
  unfold gatherTail
  have hqe : ¬(fore ++ vhAdd e ⟨h, a, cid⟩ :: aft = [] ∧
      ¬(⟨h, a, cid⟩ : ViewHistogram).isComplete) := by
    intro hcon
    exact absurd hcon.1 (by simp)
  rw [if_neg hqe]
  by_cases hvc : (⟨h, a, cid⟩ : ViewHistogram).isComplete
  · rw [if_pos hvc]
    by_cases hl : st.lastHistogram = (⟨h, a, cid⟩ : ViewHistogram).histogram
    · rw [if_pos hl]
    · rw [if_neg hl]
  · rw [if_neg hvc]
    have hlen2 : ¬(fore ++ vhAdd e ⟨h, a, cid⟩ :: aft).length > st.latency + 1 := by
      rw [hq] at hlen
      simp only [List.length_append, List.length_cons] at hlen ⊢
      omega
    rw [if_neg hlen2]

/-- Witness for gather_merges_existing_entry: a further fifth for frame 8
merges into its queued entry behind the newer incomplete frame-10 entry by
bucket-wise sum ([1] + [4] = [5]) and area sum (2/5 + 1/5 = 3/5), with no
new entry created. -/
theorem gather_merges_existing_entry_witness :
    aggQ2.queue = [⟨[2], 3/10, 10⟩] ++ ⟨[1], 2/5, 8⟩ :: [] ∧
    ¬(vhAdd ⟨[1], 2/5, 8⟩ ⟨[4], 1/5, 8⟩).isComplete ∧
    aggQ2.queue.length ≤ aggQ2.latency + 1 ∧
    (gatherHistogram aggQ2 [4] (1/5) 8).queue =
      [⟨[2], 3/10, 10⟩] ++ vhAdd ⟨[1], 2/5, 8⟩ ⟨[4], 1/5, 8⟩ :: [] := by
  have hq : aggQ2.queue = [⟨[2], 3/10, 10⟩] ++ ⟨[1], 2/5, 8⟩ :: [] := by
    rw [aggQ2_val]
    rfl
  have hm : ¬(vhAdd ⟨[1], 2/5, 8⟩ ⟨[4], 1/5, 8⟩ : ViewHistogram).isComplete := by
    norm_num [vhAdd, ViewHistogram.isComplete, abs_le]
  have hlen : aggQ2.queue.length ≤ aggQ2.latency + 1 := by
    rw [aggQ2_val]
    norm_num
  refine ⟨hq, hm, hlen, ?_⟩
  refine gather_merges_existing_entry aggQ2 [4] (1/5) 8
    [⟨[2], 3/10, 10⟩] [] ⟨[1], 2/5, 8⟩ hq rfl ?_ ?_ hm hlen
  · intro x hx
    rw [List.mem_singleton] at hx
    rw [hx]
    norm_num [ViewHistogram.isComplete, abs_le]
  · intro x hx
    exact absurd hx (List.not_mem_nil x)

/-- State with latency 0 and one incomplete entry for frame 10. -/
def aggB : HistogramAggregator := gatherHistogram aggInitL0 [3] (1/2) 10

lemma aggB_val : aggB = ⟨[0], [], 0, [⟨[3], 1/2, 10⟩]⟩ := by
  norm_num [aggB, aggInitL0, gatherHistogram, staleGuard, gatherLoop,
    gatherTail, publishIfChanged, vhAdd, histAdd, ViewHistogram.isComplete,
    abs_le, List.cons_ne_nil]

/-- Claim C4, counterexample: latency 0 bounds the queue at 1 entry, and
the state holds exactly 1.  A complete contribution for the newer frame 11
is inserted at the front and published through the early-return path,
which skips the trim step: after the call the queue holds 2 entries,
exceeding latency + 1 = 1 and dropping nothing. -/
theorem gather_bound_exceeded_cex :
    aggB.queue.length = 1 ∧ aggB.latency + 1 = 1 ∧
    (gatherHistogram aggB [4] 1 11).queue.length = 2 := by
  rw [aggB_val]
  refine ⟨rfl, rfl, ?_⟩
  norm_num [gatherHistogram, staleGuard, gatherLoop, gatherTail,
    publishIfChanged, vhAdd, histAdd, ViewHistogram.isComplete, abs_le,
    List.cons_ne_nil]

/-- Claim C4 theorem (amended): the queue bound holds for every gather
call whose incoming contribution is not itself within epsilon of complete:
if the queue held at most latency + 1 entries before the call, it holds at
most latency + 1 entries afterwards (the trim step drops the oldest entry
when an insertion overflows).  A gather call whose incoming contribution
is complete can return early after publishing and leave the queue above
the bound (see the counterexample). -/
theorem gather_incomplete_bound (st : HistogramAggregator) (h : Histogram)
    (a : ℚ) (cid : Nat)
    (hvc : ¬(⟨h, a, cid⟩ : ViewHistogram).isComplete)
    (hlen : st.queue.length ≤ st.latency + 1) :
    (gatherHistogram st h a cid).queue.length ≤ st.latency + 1 := by
  unfold gatherHistogram
  by_cases hg : staleGuard st.queue cid
  · rw [if_pos hg]
    exact hlen
  · rw [if_neg hg]
    show ((match gatherLoop ⟨h, a, cid⟩ st.lastHistogram st.published
        st.queue with
      | LoopRes.ret q l p =>
          { st with queue := q, lastHistogram := l, published := p }
      | LoopRes.brk q => gatherTail st ⟨h, a, cid⟩ q
      | LoopRes.done q => gatherTail st ⟨h, a, cid⟩ q) :
        HistogramAggregator).queue.length ≤ st.latency + 1
    have hb := gatherLoop_length_bound ⟨h, a, cid⟩ st.lastHistogram
      st.published st.queue
    cases hres : gatherLoop ⟨h, a, cid⟩ st.lastHistogram st.published
        st.queue with
    | ret q2 l p =>
      rw [hres] at hb
      exact le_trans hb hlen
    | brk q2 =>
      rw [hres] at hb
      show (gatherTail st ⟨h, a, cid⟩ q2).queue.length ≤ st.latency + 1
      unfold gatherTail
      by_cases hqe : q2 = [] ∧ ¬(⟨h, a, cid⟩ : ViewHistogram).isComplete
      · rw [if_pos hqe]
        simp [hqe.1]
      · rw [if_neg hqe, if_neg hvc]
        by_cases hover : q2.length > st.latency + 1
        · rw [if_pos hover]
          show q2.dropLast.length ≤ st.latency + 1
          rw [List.length_dropLast]
          omega
        · rw [if_neg hover]
          show q2.length ≤ st.latency + 1
          omega
    | done q2 =>
      rw [hres] at hb
      show (gatherTail st ⟨h, a, cid⟩ q2).queue.length ≤ st.latency + 1
      unfold gatherTail
      by_cases hqe : q2 = [] ∧ ¬(⟨h, a, cid⟩ : ViewHistogram).isComplete
      · rw [if_pos hqe]
        simp [hqe.1]
      · rw [if_neg hqe, if_neg hvc]
        subst hb
        by_cases hover : st.queue.length > st.latency + 1
        · rw [if_pos hover]
          show st.queue.dropLast.length ≤ st.latency + 1
          rw [List.length_dropLast]
          omega
        · rw [if_neg hover]
          exact hlen

/-- Witness for gather_incomplete_bound: an incomplete contribution for
frame 9 against a one-entry queue with latency 2 keeps the queue within
the bound. -/
theorem gather_incomplete_bound_witness :
    ¬(⟨[9], (1/2 : ℚ), 9⟩ : ViewHistogram).isComplete ∧
    aggW1.queue.length ≤ aggW1.latency + 1 ∧
    (gatherHistogram aggW1 [9] (1/2) 9).queue.length ≤ aggW1.latency + 1 := by
  have h1 : ¬(⟨[9], (1/2 : ℚ), 9⟩ : ViewHistogram).isComplete := by
    norm_num [ViewHistogram.isComplete, abs_le]
  have h2 : aggW1.queue.length ≤ aggW1.latency + 1 := by
    norm_num [aggW1]
  exact ⟨h1, h2, gather_incomplete_bound aggW1 [9] (1/2) 9 h1 h2⟩

/-- Claim C7, counterexample: with configured samples 0 (automatic), tree
depth 2, finest observed level 0 and maximum voxel extent 64, the code
computes max(64 / 2, 512) = 512 and applies no upper clamp, while the
claimed formula clamped to the implementation maximum maxSamplesPerRay =
32 would yield 32.  (Indeed the computed value is always at least 512, so
a clamp to 32 is certainly not applied.) -/
theorem sampleRate_unclamped_cex :
    computedSamplesPerRayAtFrameStart 0 [0] 64 2 = 512 ∧
    sampleRateClampedSpec 0 [0] 64 2 = 32 ∧
    (512 : Nat) ≠ maxSamplesPerRay := by
  have hmodel : computedSamplesPerRayAtFrameStart 0 [0] 64 2 = 512 := by
    unfold computedSamplesPerRayAtFrameStart
    rw [if_pos rfl]
    show ⌊max ((64 : ℚ) / (2 : ℚ) ^ (2 - maxLODOf [0] - 1))
      ((minSamplesPerRay : Nat) : ℚ)⌋₊ = 512
    rw [natFloor_max_natCast]
    have h32 : ⌊(64 : ℚ) / (2 : ℚ) ^ (2 - maxLODOf [0] - 1)⌋₊ = 32 := by
      rw [show maxLODOf [0] = 0 from rfl]
      rw [show ((2 : ℚ) ^ (2 - 0 - 1)) = (((2 ^ (2 - 0 - 1) : ℕ) : ℚ)) by
        push_cast
        ring]
      rw [show ((64 : ℚ)) = (((64 : ℕ) : ℚ)) by norm_num]
      rw [Nat.floor_div_nat, Nat.floor_natCast]
      norm_num
    rw [h32]
    rfl
  refine ⟨hmodel, ?_, by norm_num [maxSamplesPerRay]⟩
  unfold sampleRateClampedSpec
  rw [if_pos rfl, hmodel]
  rfl

/-- Claim C7 theorem (amended): in automatic mode (configured value 0) the
per-ray sample count equals max(maxVoxelDim / 2 ^ (treeDepth − maxLOD −
1), 512) — truncated to an integer, with NO clamp to an upper maximum —
and a nonzero configured value is used unchanged.  The hypothesis keeps
the shift exponent in the regime where the C++ expression is defined. -/
theorem computedSamplesPerRay_formula (n : Nat) (levels : List Nat)
    (vox depth : Nat) (_hd : maxLODOf levels + 1 ≤ depth) :
    computedSamplesPerRayAtFrameStart n levels vox depth =
      if n = 0 then
        max (vox / 2 ^ (depth - maxLODOf levels - 1)) minSamplesPerRay
      else n := by
  unfold computedSamplesPerRayAtFrameStart
  by_cases hn : n = 0
  · rw [if_pos hn, if_pos hn]
    show ⌊max ((vox : ℚ) / (2 : ℚ) ^ (depth - maxLODOf levels - 1))
      ((minSamplesPerRay : Nat) : ℚ)⌋₊ = _
    rw [natFloor_max_natCast]
    congr 1
    rw [show ((2 : ℚ) ^ (depth - maxLODOf levels - 1))
        = (((2 ^ (depth - maxLODOf levels - 1) : ℕ) : ℚ)) by
      push_cast
      ring]
    rw [Nat.floor_div_nat, Nat.floor_natCast]
  · rw [if_neg hn, if_neg hn]

/-- Witness for computedSamplesPerRay_formula at depth 2, level list [0],
voxel extent 64. -/
theorem computedSamplesPerRay_formula_witness :
    maxLODOf [0] + 1 ≤ 2 ∧
    computedSamplesPerRayAtFrameStart 0 [0] 64 2 =
      (if (0 : Nat) = 0 then
        max (64 / 2 ^ (2 - maxLODOf [0] - 1)) minSamplesPerRay
      else 0) := by
  have hd : maxLODOf [0] + 1 ≤ 2 := by norm_num [maxLODOf]
  exact ⟨hd, computedSamplesPerRay_formula 0 [0] 64 2 hd⟩

end Livre
